import Mathlib

/-!
Verification of the JSON-to-CSV conversion engine.

The repository contains two parallel implementations of the same conversion
pipeline: a Flask route (`app.py`, function `convert`) and a CLI script
(`convert.py`, function `convert`).  Both share a verbatim-identical
`flatten` function, locate the row array with the same greedy descent over
nested objects, aggregate the sorted column set, and emit CSV through
Python's `csv.DictWriter` with `extrasaction="ignore"` and the default
`excel` dialect (comma delimiter, minimal quoting with doubled internal
quotes, CRLF line terminator).

This file embeds the parsed-JSON data model and both pipelines as
executable Lean functions and proves/refutes the frozen claims about them.
Numbers are modelled as integers (none of the claims concerns float
formatting).
-/

/-- Parsed JSON values, as produced by Python's `json` module: dicts keep
insertion order, so objects are ordered association lists. -/
inductive Json where
  | null : Json
  | bool : Bool → Json
  | num : Int → Json
  | str : String → Json
  | arr : List Json → Json
  | obj : List (String × Json) → Json
  deriving Repr

/-- A value that is neither a dict nor a list (Python: fails both
`isinstance(·, dict)` and `isinstance(·, list)`). -/
def isScalar : Json → Bool
  | .arr _ => false
  | .obj _ => false
  | _ => true

/-- Python dict assignment `d[k] = v`: replace the value in place if the key
is present, append the new pair otherwise. -/
def dictPut (d : List (String × Json)) (k : String) (v : Json) : List (String × Json) :=
  match d with
  | [] => [(k, v)]
  | (k1, v1) :: rest => if k1 = k then (k1, v) :: rest else (k1, v1) :: dictPut rest k v

/-- Python `d.update(e)`: put every pair of `e` into `d`, in order. -/
def dictUpdate (d e : List (String × Json)) : List (String × Json) :=
  e.foldl (fun acc kv => dictPut acc kv.1 kv.2) d

/-- Python dict lookup `d.get(k)`: first pair with the given key. -/
def lookupRow (row : List (String × Json)) (k : String) : Option Json :=
  match row with
  | [] => none
  | (k1, v) :: rest => if k1 = k then some v else lookupRow rest k

/-- Key extension for a dict member: `f"{parent_key}{sep}{k}" if parent_key
else k` with `sep = "."`. -/
def joinKey (p k : String) : String := if p = "" then k else p ++ "." ++ k

/-- Key extension for a list element: `f"{parent_key}[{i}]"`. -/
def idxKey (p : String) (i : Nat) : String := p ++ "[" ++ toString i ++ "]"

mutual

/-- The `flatten` function, verbatim-identical in `app.py` and `convert.py`:
dict members recurse with the dotted key, list elements recurse with the
bracketed index, anything else is stored as a leaf under the current path.
The `items` dict is threaded through `items.update(...)` calls, so later
children overwrite earlier ones on key collision. -/
def flatten : Json → String → List (String × Json)
  | .obj fs, p => flattenObj fs p []
  | .arr vs, p => flattenArr vs p 0 []
  | .null, p => [(p, .null)]
  | .bool b, p => [(p, .bool b)]
  | .num n, p => [(p, .num n)]
  | .str s, p => [(p, .str s)]

/-- The `for k, v in obj.items()` loop of `flatten`, with `items` as
accumulator. -/
def flattenObj : List (String × Json) → String → List (String × Json) → List (String × Json)
  | [], _, acc => acc
  | (k, v) :: rest, p, acc => flattenObj rest p (dictUpdate acc (flatten v (joinKey p k)))

/-- The `for i, v in enumerate(obj)` loop of `flatten`. -/
def flattenArr : List Json → String → Nat → List (String × Json) → List (String × Json)
  | [], _, _, acc => acc
  | v :: rest, p, i, acc => flattenArr rest p (i + 1) (dictUpdate acc (flatten v (idxKey p i)))

end

mutual

/-- Ghost enumeration of the scalar leaves of a value together with their
flattened path keys, in the traversal order of `flatten` but without the
dict merge, so colliding paths are kept as separate entries. -/
def leaves : Json → String → List (String × Json)
  | .obj fs, p => leavesObj fs p
  | .arr vs, p => leavesArr vs p 0
  | .null, p => [(p, .null)]
  | .bool b, p => [(p, .bool b)]
  | .num n, p => [(p, .num n)]
  | .str s, p => [(p, .str s)]

/-- Leaf enumeration over the members of an object. -/
def leavesObj : List (String × Json) → String → List (String × Json)
  | [], _ => []
  | (k, v) :: rest, p => leaves v (joinKey p k) ++ leavesObj rest p

/-- Leaf enumeration over the elements of an array. -/
def leavesArr : List Json → String → Nat → List (String × Json)
  | [], _, _ => []
  | v :: rest, p, i => leaves v (idxKey p i) ++ leavesArr rest p (i + 1)

end

/-- Quoting trigger of `csv.writer` in the default `excel` dialect with
`QUOTE_MINIMAL`: a field is quoted iff it contains the delimiter, the quote
character, or a character of the line terminator `"\r\n"`. -/
def containsSpecial (s : String) : Bool :=
  s.data.any (fun c => c = ',' || c = '"' || c = '\r' || c = '\n')

/-- Doubling of internal quote characters (`doublequote=True`). -/
def doubleQuotes : List Char → List Char
  | [] => []
  | c :: cs => if c = '"' then '"' :: '"' :: doubleQuotes cs else c :: doubleQuotes cs

/-- One CSV field as written by `csv.writer`: quoted with doubled internal
quotes when it contains a special character, written as-is otherwise. -/
def encodeField (s : String) : String :=
  if containsSpecial s then "\"" ++ String.mk (doubleQuotes s.data) ++ "\"" else s

/-- The joined record: fields separated by the comma delimiter. -/
def joinRecord (fields : List String) : String :=
  String.intercalate "," (fields.map encodeField)

/-- One output line of `csv.writer.writerow`: the joined record plus CRLF.
CPython special case: a non-empty field list whose joined record is empty
(a single empty unquoted field) is written as a quoted empty field, so that
the record is not an empty line. -/
def emitLine (fields : List String) : String :=
  if 0 < fields.length ∧ joinRecord fields = "" then "\"\"\r\n"
  else joinRecord fields ++ "\r\n"

/-- Rendering of one cell value by `csv.writer`: `None` becomes the empty
field, anything else goes through `str()`.  Arrays and objects never occur
in a `FlatRow` (`flatten` stores only scalar leaves), so their rendering is
immaterial; the empty string is used. -/
def render : Json → String
  | .null => ""
  | .bool true => "True"
  | .bool false => "False"
  | .num n => toString n
  | .str s => s
  | .arr _ => ""
  | .obj _ => ""

/-- `DictWriter._dict_to_list` for one column with `restval=None`: the
row's value under the column key, or the empty field when absent. -/
def fieldFor (row : List (String × Json)) (c : String) : String :=
  match lookupRow row c with
  | some v => render v
  | none => ""

/-- `DictWriter.writerow` field extraction: one rendered field per column,
in column order.  Keys of `row` outside `cols` are never consulted
(`extrasaction="ignore"`). -/
def rowFields (cols : List String) (row : List (String × Json)) : List String :=
  cols.map (fieldFor row)

/-- Python set insertion: add the key unless already present. -/
def setInsert (s : List String) (k : String) : List String :=
  if k ∈ s then s else s ++ [k]

/-- `all_keys.update(flat.keys())`. -/
def addKeys (s : List String) (row : List (String × Json)) : List String :=
  row.foldl (fun acc kv => setInsert acc kv.1) s

/-- The shared aggregation loop of both pipelines:
`for row in data: flat = flatten(row); flat_rows.append(flat);
all_keys.update(flat.keys())`.  Returns the flat rows and the key set. -/
def aggregate (rows : List Json) : List (List (String × Json)) × List String :=
  rows.foldl (fun acc row =>
    let flat := flatten row ""
    (acc.1 ++ [flat], addKeys acc.2 flat)) ([], [])

/-- `columns = sorted(all_keys)`. -/
def columnsOf (rows : List Json) : List String :=
  List.insertionSort (· ≤ ·) (aggregate rows).2

/-- The shared body of both `for value in node.values()` scans: the first
member value that is a non-empty list or a dict decides the step. -/
def firstHit : List (String × Json) → Option Json
  | [] => none
  | (_, v) :: rest =>
    match v with
    | .arr (x :: xs) => some (.arr (x :: xs))
    | .obj gs => some (.obj gs)
    | _ => firstHit rest

theorem firstHit_sizeOf {fs : List (String × Json)} {v : Json} (h : firstHit fs = some v) :
    sizeOf v < sizeOf fs := by
  induction fs with
  | nil => simp [firstHit] at h
  | cons kv rest ih =>
    obtain ⟨k, w⟩ := kv
    simp only [firstHit] at h
    split at h
    · cases h; simp; omega
    · cases h; simp; omega
    · have := ih h
      simp
      omega

/-- The scan of `app.py`'s `find_array` loop body: `return value` for a
non-empty list (left), `node = value; break` for a dict (right). -/
def appScan : List (String × Json) → Option (Json ⊕ Json)
  | [] => none
  | (_, v) :: rest =>
    match v with
    | .arr (x :: xs) => some (.inl (.arr (x :: xs)))
    | .obj gs => some (.inr (.obj gs))
    | _ => appScan rest

theorem appScan_eq_firstHit (fs : List (String × Json)) :
    appScan fs = match firstHit fs with
      | some (.obj gs) => some (.inr (.obj gs))
      | some v => some (.inl v)
      | none => none := by
  induction fs with
  | nil => simp [appScan, firstHit]
  | cons kv rest ih =>
    obtain ⟨k, w⟩ := kv
    cases w <;> simp [appScan, firstHit, ih]
    rename_i vs
    cases vs <;> simp [ih]

theorem appScan_sizeOf {fs : List (String × Json)} {n : Json}
    (h : appScan fs = some (.inr n)) : sizeOf n < sizeOf fs := by
  rw [appScan_eq_firstHit] at h
  split at h
  · cases h
    rename_i heq
    exact firstHit_sizeOf heq
  · rename_i v h1 heq
    cases h
  · cases h

/-- The `while isinstance(node, dict)` loop of `app.py`'s `find_array`:
`inl v` models the early `return value`, `inr node` the value of `node`
when the loop stops. -/
def appLoop (node : Json) : Json ⊕ Json :=
  match node with
  | .obj fs =>
    match _h : appScan fs with
    | some (.inl v) => .inl v
    | some (.inr n) => appLoop n
    | _ => .inr (.obj fs)
  | n => .inr n
termination_by sizeOf node
decreasing_by
  have := appScan_sizeOf _h
  simp at this ⊢
  omega

/-- `find_array` from `app.py`: the loop above followed by
`return node if isinstance(node, list) else [data]`, where `data` is the
original argument. -/
def find_array (data : Json) : Json :=
  match appLoop data with
  | .inl v => v
  | .inr node =>
    match node with
    | .arr vs => .arr vs
    | _ => .arr [data]

/-- The `while isinstance(node, dict)` loop inlined in `convert.py`'s
`convert`: for a non-empty list the loop sets `node = value` and the loop
condition then fails, so the loop yields the list itself. -/
def cliLoop (node : Json) : Json :=
  match node with
  | .obj fs =>
    match _h : firstHit fs with
    | some (.arr vs) => .arr vs
    | some (.obj gs) => cliLoop (.obj gs)
    | _ => .obj fs
  | n => n
termination_by sizeOf node
decreasing_by
  have := firstHit_sizeOf _h
  simp at this ⊢
  omega

/-- The conversion core of the `/convert` route in `app.py`, after JSON
parsing: locate the rows (only dict roots enter `find_array`), reject a
non-list result, aggregate, sort the columns, then stream the header chunk
followed by one chunk per row; the response body is the concatenation of
the yielded chunks.  `none` models the error page. -/
def appConvert (data : Json) : Option String :=
  let located := match data with
    | .obj _ => find_array data
    | d => d
  match located with
  | .arr rs =>
    let agg := aggregate rs
    let cols := List.insertionSort (· ≤ ·) agg.2
    some (String.join (emitLine cols :: agg.1.map (fun r => emitLine (rowFields cols r))))
  | _ => none

/-- The conversion core of `convert.py`'s `convert`, after JSON parsing:
the inline locator loop with `data = node if isinstance(node, list) else
[data]`, the non-list rejection (`sys.exit`, modelled as `none`),
aggregation, sorted columns, then `writeheader()` followed by
`writerows(flat_rows)` into the output file. -/
def cliConvert (data : Json) : Option String :=
  let located := match data with
    | .obj _ =>
      match cliLoop data with
      | .arr vs => Json.arr vs
      | _ => Json.arr [data]
    | d => d
  match located with
  | .arr rs =>
    let agg := aggregate rs
    let cols := List.insertionSort (· ≤ ·) agg.2
    some (agg.1.foldl (fun acc r => acc ++ emitLine (rowFields cols r)) (emitLine cols))
  | _ => none

/-- Field-level parse of one CSV field that started with an opening quote,
per RFC 4180: a doubled quote is one literal quote, a single quote closes
the field and must end the input. -/
def parseQuotedBody : List Char → Option (List Char)
  | [] => none
  | ['"'] => some []
  | '"' :: c2 :: rest2 => if c2 = '"' then (parseQuotedBody rest2).map ('"' :: ·) else none
  | c :: rest => (parseQuotedBody rest).map (c :: ·)

/-- Field-level parse of one emitted CSV field under standard RFC 4180
rules: a field starting with a quote is parsed as a quoted field, any other
field is taken verbatim and may not contain a special character. -/
def parseCsvField (cs : List Char) : Option (List Char) :=
  match cs with
  | '"' :: rest => parseQuotedBody rest
  | _ =>
    if cs.any (fun c => c = ',' || c = '"' || c = '\r' || c = '\n') then none else some cs

/-- A single-chain nested document of the given depth: `nest 0 = 1`,
`nest (n+1) = [nest n]`. -/
def nest : Nat → Json
  | 0 => .num 1
  | n + 1 => .arr [nest n]

/-- The flattened key of the unique leaf of `nest n` below path `p`. -/
def deepKey : Nat → String → String
  | 0, p => p
  | n + 1, p => deepKey n (p ++ "[0]")

/-- Structural induction over `Json` with membership hypotheses for the
nested lists. -/
theorem Json.inductionOn {P : Json → Prop} (hnull : P .null) (hbool : ∀ b, P (.bool b))
    (hnum : ∀ n, P (.num n)) (hstr : ∀ s, P (.str s))
    (harr : ∀ vs, (∀ v ∈ vs, P v) → P (.arr vs))
    (hobj : ∀ fs, (∀ kv ∈ fs, P kv.2) → P (.obj fs)) : ∀ v, P v
  | .null => hnull
  | .bool b => hbool b
  | .num n => hnum n
  | .str s => hstr s
  | .arr vs => harr vs (fun v _hv => Json.inductionOn hnull hbool hnum hstr harr hobj v)
  | .obj fs => hobj fs (fun kv _hkv => Json.inductionOn hnull hbool hnum hstr harr hobj kv.2)
termination_by v => sizeOf v
decreasing_by
  · have := List.sizeOf_lt_of_mem _hv
    simp
    omega
  · have h1 := List.sizeOf_lt_of_mem _hkv
    obtain ⟨a, b⟩ := kv
    simp at h1 ⊢
    omega

theorem keys_dictPut (d : List (String × Json)) (k a : String) (v : Json) :
    a ∈ (dictPut d k v).map Prod.fst ↔ a ∈ d.map Prod.fst ∨ a = k := by
  induction d with
  | nil => simp [dictPut]
  | cons kv rest ih =>
    obtain ⟨k1, v1⟩ := kv
    by_cases h : k1 = k
    · subst h
      simp [dictPut]
      tauto
    · simp [dictPut, h, ih]
      tauto

theorem keys_dictUpdate (d e : List (String × Json)) (a : String) :
    a ∈ (dictUpdate d e).map Prod.fst ↔ a ∈ d.map Prod.fst ∨ a ∈ e.map Prod.fst := by
  induction e generalizing d with
  | nil => simp [dictUpdate]
  | cons kv rest ih =>
    obtain ⟨k1, v1⟩ := kv
    show a ∈ (dictUpdate (dictPut d k1 v1) rest).map Prod.fst ↔ _
    rw [ih, keys_dictPut]
    simp
    tauto

theorem flattenObj_keys (fs : List (String × Json))
    (hel : ∀ kv ∈ fs, ∀ p a,
      a ∈ (flatten kv.2 p).map Prod.fst ↔ a ∈ (leaves kv.2 p).map Prod.fst) :
    ∀ p acc a, a ∈ (flattenObj fs p acc).map Prod.fst ↔
      a ∈ acc.map Prod.fst ∨ a ∈ (leavesObj fs p).map Prod.fst := by
  induction fs with
  | nil => simp [flattenObj, leavesObj]
  | cons kv rest ih =>
    obtain ⟨k, v⟩ := kv
    intro p acc a
    have hv : a ∈ (flatten v (joinKey p k)).map Prod.fst ↔
        a ∈ (leaves v (joinKey p k)).map Prod.fst := hel (k, v) (by simp) (joinKey p k) a
    have hrest := ih (fun kv hkv => hel kv (by simp [hkv]))
    simp only [flattenObj, leavesObj]
    rw [hrest, keys_dictUpdate]
    simp only [List.map_append, List.mem_append]
    rw [hv]
    tauto

theorem flattenArr_keys (vs : List Json)
    (hel : ∀ v ∈ vs, ∀ p a,
      a ∈ (flatten v p).map Prod.fst ↔ a ∈ (leaves v p).map Prod.fst) :
    ∀ p i acc a, a ∈ (flattenArr vs p i acc).map Prod.fst ↔
      a ∈ acc.map Prod.fst ∨ a ∈ (leavesArr vs p i).map Prod.fst := by
  induction vs with
  | nil => simp [flattenArr, leavesArr]
  | cons v rest ih =>
    intro p i acc a
    have hv := hel v (by simp)
    have hrest := ih (fun v hv => hel v (by simp [hv]))
    simp only [flattenArr, leavesArr]
    rw [hrest, keys_dictUpdate]
    simp only [List.map_append, List.mem_append]
    rw [hv (idxKey p i) a]
    tauto

/-- Every key of a flattened row is the path of a scalar leaf, and
conversely: the merge never invents or erases a key, it only collapses
duplicate paths. -/
theorem flatten_keys (v : Json) : ∀ p a,
    a ∈ (flatten v p).map Prod.fst ↔ a ∈ (leaves v p).map Prod.fst := by
  induction v using Json.inductionOn with
  | hnull => simp [flatten, leaves]
  | hbool b => simp [flatten, leaves]
  | hnum n => simp [flatten, leaves]
  | hstr s => simp [flatten, leaves]
  | harr vs ih =>
    intro p a
    simp only [flatten, leaves]
    rw [flattenArr_keys vs ih p 0 [] a]
    simp
  | hobj fs ih =>
    intro p a
    simp only [flatten, leaves]
    rw [flattenObj_keys fs ih p [] a]
    simp

theorem setInsert_mem (s : List String) (k a : String) :
    a ∈ setInsert s k ↔ a ∈ s ∨ a = k := by
  by_cases h : k ∈ s
  · simp only [setInsert, if_pos h]
    constructor
    · tauto
    · rintro (ha | rfl) <;> tauto
  · simp [setInsert, if_neg h]

theorem setInsert_nodup {s : List String} (h : s.Nodup) (k : String) :
    (setInsert s k).Nodup := by
  by_cases hk : k ∈ s
  · simpa [setInsert, if_pos hk]
  · simp [setInsert, if_neg hk, List.nodup_append, h, hk]

theorem addKeys_mem (row : List (String × Json)) : ∀ (s : List String) (a : String),
    a ∈ addKeys s row ↔ a ∈ s ∨ a ∈ row.map Prod.fst := by
  induction row with
  | nil => simp [addKeys]
  | cons kv rest ih =>
    intro s a
    show a ∈ addKeys (setInsert s kv.1) rest ↔ _
    rw [ih, setInsert_mem]
    simp
    tauto

theorem addKeys_nodup (row : List (String × Json)) : ∀ {s : List String}, s.Nodup →
    (addKeys s row).Nodup := by
  induction row with
  | nil => intro s h; exact h
  | cons kv rest ih =>
    intro s h
    exact ih (setInsert_nodup h kv.1)

theorem aggregate_fst_aux (rows : List Json) :
    ∀ acc : List (List (String × Json)) × List String,
    (rows.foldl (fun acc row =>
      let flat := flatten row ""
      (acc.1 ++ [flat], addKeys acc.2 flat)) acc).1
      = acc.1 ++ rows.map (fun r => flatten r "") := by
  induction rows with
  | nil => simp
  | cons r rest ih =>
    intro acc
    simp only [List.foldl_cons, List.map_cons]
    rw [ih]
    simp

/-- The flat-row list produced by the aggregation loop is exactly the
per-row flattening, in input order. -/
theorem aggregate_fst (rows : List Json) :
    (aggregate rows).1 = rows.map (fun r => flatten r "") := by
  rw [aggregate, aggregate_fst_aux]
  simp

theorem aggregate_snd_aux (rows : List Json) :
    ∀ (acc : List (List (String × Json)) × List String) (a : String),
    (a ∈ (rows.foldl (fun acc row =>
      let flat := flatten row ""
      (acc.1 ++ [flat], addKeys acc.2 flat)) acc).2)
      ↔ a ∈ acc.2 ∨ ∃ r ∈ rows, a ∈ (flatten r "").map Prod.fst := by
  induction rows with
  | nil => simp
  | cons r rest ih =>
    intro acc a
    simp only [List.foldl_cons]
    rw [ih]
    show a ∈ addKeys acc.2 (flatten r "") ∨ _ ↔ _
    rw [addKeys_mem]
    simp only [List.mem_cons]
    constructor
    · rintro ((h | h) | ⟨w, hw, h⟩)
      · exact Or.inl h
      · exact Or.inr ⟨r, Or.inl rfl, h⟩
      · exact Or.inr ⟨w, Or.inr hw, h⟩
    · rintro (h | ⟨w, (rfl | hw), h⟩)
      · exact Or.inl (Or.inl h)
      · exact Or.inl (Or.inr h)
      · exact Or.inr ⟨w, hw, h⟩

/-- Membership in the aggregated key set is exactly membership in some
row's flattened key set. -/
theorem aggregate_snd_mem (rows : List Json) (a : String) :
    a ∈ (aggregate rows).2 ↔ ∃ r ∈ rows, a ∈ (flatten r "").map Prod.fst := by
  rw [aggregate, aggregate_snd_aux]
  simp

theorem aggregate_snd_nodup (rows : List Json) : (aggregate rows).2.Nodup := by
  have aux : ∀ (rs : List Json) (acc : List (List (String × Json)) × List String),
      acc.2.Nodup → (rs.foldl (fun acc row =>
        let flat := flatten row ""
        (acc.1 ++ [flat], addKeys acc.2 flat)) acc).2.Nodup := by
    intro rs
    induction rs with
    | nil => intro acc h; exact h
    | cons r rest ih =>
      intro acc h
      exact ih _ (addKeys_nodup _ h)
  exact aux rows ([], []) (by simp)

theorem mem_columnsOf (rows : List Json) (a : String) :
    a ∈ columnsOf rows ↔ ∃ r ∈ rows, a ∈ (flatten r "").map Prod.fst := by
  rw [columnsOf, List.mem_insertionSort, aggregate_snd_mem]

theorem columnsOf_sorted (rows : List Json) :
    (columnsOf rows).Sorted (· < ·) := by
  have hs : (columnsOf rows).Sorted (· ≤ ·) := List.sorted_insertionSort _ _
  have hn : (columnsOf rows).Nodup :=
    ((List.perm_insertionSort (· ≤ ·) (aggregate rows).2).nodup_iff).2
      (aggregate_snd_nodup rows)
  exact (hs.and hn).imp (fun h => lt_of_le_of_ne h.1 h.2)

theorem cliLoop_obj (fs : List (String × Json)) : cliLoop (.obj fs) =
    match firstHit fs with
    | some (.arr vs) => .arr vs
    | some (.obj gs) => cliLoop (.obj gs)
    | _ => .obj fs := by
  rw [cliLoop.eq_def]
  dsimp only
  split
  · rename_i vs heq
    rw [heq]
  · rename_i gs heq
    rw [heq]
  · rename_i hne1 hne2
    rcases hfh : firstHit fs with _ | v
    · rfl
    · rcases v with _ | b | n0 | s0 | vs | gs
      · rfl
      · rfl
      · rfl
      · rfl
      · exact (hne1 vs hfh).elim
      · exact (hne2 gs hfh).elim

theorem appLoop_obj (fs : List (String × Json)) : appLoop (.obj fs) =
    match appScan fs with
    | some (.inl v) => .inl v
    | some (.inr n) => appLoop n
    | _ => .inr (.obj fs) := by
  rw [appLoop.eq_def]
  dsimp only
  split
  · rename_i v heq
    rw [heq]
  · rename_i n heq
    rw [heq]
  · rename_i hne1 hne2
    rcases hsc : appScan fs with _ | v
    · rfl
    · rcases v with v | n
      · exact (hne1 v hsc).elim
      · exact (hne2 n hsc).elim

theorem appLoop_null : appLoop .null = .inr .null := by rw [appLoop.eq_def]

theorem appLoop_bool (b : Bool) : appLoop (.bool b) = .inr (.bool b) := by rw [appLoop.eq_def]

theorem appLoop_num (n : Int) : appLoop (.num n) = .inr (.num n) := by rw [appLoop.eq_def]

theorem appLoop_str (s : String) : appLoop (.str s) = .inr (.str s) := by rw [appLoop.eq_def]

theorem appLoop_arr (vs : List Json) : appLoop (.arr vs) = .inr (.arr vs) := by
  rw [appLoop.eq_def]

theorem cliLoop_null : cliLoop .null = .null := by rw [cliLoop.eq_def]

theorem cliLoop_bool (b : Bool) : cliLoop (.bool b) = .bool b := by rw [cliLoop.eq_def]

theorem cliLoop_num (n : Int) : cliLoop (.num n) = .num n := by rw [cliLoop.eq_def]

theorem cliLoop_str (s : String) : cliLoop (.str s) = .str s := by rw [cliLoop.eq_def]

theorem cliLoop_arr (vs : List Json) : cliLoop (.arr vs) = .arr vs := by rw [cliLoop.eq_def]

theorem firstHit_shape {fs : List (String × Json)} {v : Json} (h : firstHit fs = some v) :
    (∃ x xs, v = .arr (x :: xs)) ∨ ∃ gs, v = .obj gs := by
  induction fs with
  | nil => simp [firstHit] at h
  | cons kv rest ih =>
    obtain ⟨k, w⟩ := kv
    simp only [firstHit] at h
    split at h
    · cases h
      exact Or.inl ⟨_, _, rfl⟩
    · cases h
      exact Or.inr ⟨_, rfl⟩
    · exact ih h

theorem loop_agree_aux : ∀ (m : Nat) (n : Json), sizeOf n ≤ m →
    Sum.elim id id (appLoop n) = cliLoop n ∧
    ∀ v, appLoop n = Sum.inl v → ∃ x xs, v = Json.arr (x :: xs) := by
  intro m
  induction m with
  | zero =>
    intro n h
    exfalso
    cases n <;> simp at h
  | succ m ih =>
    intro n h
    cases n with
    | obj fs =>
      rw [appLoop_obj, cliLoop_obj]
      rcases hfh : firstHit fs with _ | v
      · have hsc : appScan fs = none := by rw [appScan_eq_firstHit, hfh]
        rw [hsc]
        simp
      · rcases firstHit_shape hfh with ⟨x, xs, rfl⟩ | ⟨gs, rfl⟩
        · have hsc : appScan fs = some (.inl (.arr (x :: xs))) := by
            rw [appScan_eq_firstHit, hfh]
          rw [hsc]
          refine ⟨by simp, ?_⟩
          intro v hv
          simp at hv
          exact ⟨x, xs, hv.symm⟩
        · have hsc : appScan fs = some (.inr (.obj gs)) := by
            rw [appScan_eq_firstHit, hfh]
          rw [hsc]
          have h2 := firstHit_sizeOf hfh
          have hm : sizeOf (Json.obj gs) ≤ m := by
            simp at h h2 ⊢
            omega
          exact ih _ hm
    | null => rw [appLoop_null, cliLoop_null]; simp
    | bool b => rw [appLoop_bool, cliLoop_bool]; simp
    | num n0 => rw [appLoop_num, cliLoop_num]; simp
    | str s => rw [appLoop_str, cliLoop_str]; simp
    | arr vs => rw [appLoop_arr, cliLoop_arr]; simp

theorem loop_agree (n : Json) :
    Sum.elim id id (appLoop n) = cliLoop n ∧
    ∀ v, appLoop n = Sum.inl v → ∃ x xs, v = Json.arr (x :: xs) :=
  loop_agree_aux (sizeOf n) n le_rfl

/-- The two locators agree: `app.py`'s `find_array` equals the inline
locate-then-wrap step of `convert.py`. -/
theorem locate_agree (data : Json) :
    find_array data = (match cliLoop data with
      | .arr vs => Json.arr vs
      | _ => Json.arr [data]) := by
  obtain ⟨h1, h2⟩ := loop_agree data
  rcases hap : appLoop data with v | node
  · obtain ⟨x, xs, rfl⟩ := h2 _ hap
    rw [hap] at h1
    simp at h1
    rw [find_array, hap, ← h1]
  · rw [hap] at h1
    simp at h1
    rw [find_array, hap, ← h1]

/-- Concatenating the yielded chunks of `app.py`'s `generate()` equals the
single-writer output of `convert.py`: header line, then one line per row. -/
theorem emit_fold_eq (cols : List String) (frs : List (List (String × Json))) :
    String.join (emitLine cols :: frs.map (fun r => emitLine (rowFields cols r))) =
    frs.foldl (fun acc r => acc ++ emitLine (rowFields cols r)) (emitLine cols) := by
  have hempty : ∀ s : String, "" ++ s = s := fun s => by
    apply String.ext
    rw [String.data_append]
    rfl
  rw [String.join, List.foldl_cons, List.foldl_map, hempty]

theorem convert_agree (d : Json) : appConvert d = cliConvert d := by
  cases d with
  | obj fs =>
    simp only [appConvert, cliConvert, locate_agree (Json.obj fs)]
    generalize (match cliLoop (Json.obj fs) with
      | .arr vs => Json.arr vs
      | _ => Json.arr [Json.obj fs]) = loc
    cases loc <;> simp [emit_fold_eq]
  | null => rfl
  | bool b => rfl
  | num n => rfl
  | str s => rfl
  | arr vs =>
    simp only [appConvert, cliConvert]
    exact congrArg some (emit_fold_eq _ _)

theorem parseQuotedBody_double (l : List Char) :
    parseQuotedBody (doubleQuotes l ++ ['"']) = some l := by
  induction l with
  | nil => rfl
  | cons c cs ih =>
    by_cases hc : c = '"'
    · subst hc
      have hdq : doubleQuotes ('"' :: cs) = '"' :: '"' :: doubleQuotes cs := by
        simp [doubleQuotes]
      rw [hdq, List.cons_append, List.cons_append]
      simp [parseQuotedBody, ih]
    · have hdq : doubleQuotes (c :: cs) = c :: doubleQuotes cs := by
        simp [doubleQuotes, hc]
      rw [hdq, List.cons_append]
      simp [parseQuotedBody, hc, ih]

theorem containsSpecial_of_comma {s : String} (h : ',' ∈ s.data) :
    containsSpecial s = true := by
  rw [containsSpecial, List.any_eq_true]
  exact ⟨',', h, by decide⟩

theorem encodeField_data_of_comma {s : String} (h : ',' ∈ s.data) :
    (encodeField s).data = '"' :: (doubleQuotes s.data ++ ['"']) := by
  rw [encodeField, if_pos (containsSpecial_of_comma h)]
  rw [String.data_append, String.data_append]
  rfl

theorem lookupRow_eq_none {row : List (String × Json)} {c : String}
    (h : c ∉ row.map Prod.fst) : lookupRow row c = none := by
  induction row with
  | nil => rfl
  | cons kv rest ih =>
    obtain ⟨k, v⟩ := kv
    simp at h
    rw [lookupRow, if_neg (fun hk => h.1 hk.symm)]
    exact ih (by simp [h.2])

theorem lookupRow_filter (cols : List String) (row : List (String × Json)) (c : String)
    (hc : c ∈ cols) :
    lookupRow (row.filter (fun kv => decide (kv.1 ∈ cols))) c = lookupRow row c := by
  induction row with
  | nil => rfl
  | cons kv rest ih =>
    obtain ⟨k, v⟩ := kv
    by_cases hk : k = c
    · subst hk
      rw [List.filter_cons, if_pos (by simpa using hc)]
      rw [lookupRow, lookupRow, if_pos rfl, if_pos rfl]
    · by_cases hin : k ∈ cols
      · rw [List.filter_cons, if_pos (by simpa using hin)]
        rw [lookupRow, lookupRow, if_neg hk, if_neg hk]
        exact ih
      · rw [List.filter_cons, if_neg (by simpa using hin)]
        rw [lookupRow, if_neg hk]
        exact ih

theorem flatten_nest (n : Nat) : ∀ p, flatten (nest n) p = [(deepKey n p, Json.num 1)] := by
  induction n with
  | zero => intro p; rfl
  | succ n ih =>
    intro p
    have hidx : idxKey p 0 = p ++ "[0]" := by
      rw [idxKey, String.append_assoc, String.append_assoc]
      rfl
    show flattenArr [nest n] p 0 [] = _
    rw [flattenArr, flattenArr, ih (idxKey p 0), hidx]
    rfl

/-- C1 counterexample: a scalar root is rejected by both conversion
pipelines (the error page / `sys.exit`), it is not converted as the
one-row array `[document]`. -/
theorem c1_counterexample :
    appConvert (Json.num 5) = none ∧ cliConvert (Json.num 5) = none :=
  ⟨rfl, rfl⟩

/-- C1 (amended): the pipelines invoke the locator only on object roots, so
a scalar root fails with an error rather than being wrapped; `find_array`
itself would wrap a scalar as `[document]` but is never reached; an empty
root array is processed as-is with zero rows (output is the bare header
terminator, with no wrapped single row). -/
theorem c1_scalar_root_rejected :
    (∀ d : Json, isScalar d = true → appConvert d = none ∧ cliConvert d = none) ∧
    find_array (Json.num 5) = Json.arr [Json.num 5] ∧
    appConvert (Json.arr []) = some "\r\n" := by
  refine ⟨?_, ?_, rfl⟩
  · intro d hd
    cases d with
    | null => exact ⟨rfl, rfl⟩
    | bool b => exact ⟨rfl, rfl⟩
    | num n => exact ⟨rfl, rfl⟩
    | str s => exact ⟨rfl, rfl⟩
    | arr vs => exact absurd hd (by simp [isScalar])
    | obj fs => exact absurd hd (by simp [isScalar])
  · rw [find_array, appLoop_num]

/-- C1 witness: instantiation of the amended claim at the scalar `"x"`. -/
theorem c1_witness :
    isScalar (Json.str "x") = true ∧
    appConvert (Json.str "x") = none ∧ cliConvert (Json.str "x") = none :=
  ⟨rfl, c1_scalar_root_rejected.1 (Json.str "x") rfl⟩

/-- C2: the two conversion implementations present in the source (the web
route's converter in `app.py` and the CLI converter in `convert.py`)
produce identical output — the same CSV text on success, an error on the
same inputs — for every parsed JSON document. -/
theorem c2_implementations_equivalent : ∀ d : Json, appConvert d = cliConvert d :=
  fun d => convert_agree d

/-- C3 counterexample: an empty root array does not fail with an
`EmptyResult` error; both pipelines succeed and emit a headerless file
consisting of a single CRLF. -/
theorem c3_counterexample :
    appConvert (Json.arr []) = some "\r\n" ∧ cliConvert (Json.arr []) = some "\r\n" :=
  ⟨rfl, rfl⟩

theorem map_const_line {α : Type} (l : List α) :
    l.map (fun _ => "\r\n") = List.replicate l.length "\r\n" := by
  induction l with
  | nil => rfl
  | cons x xs ih => simp [ih, List.replicate_succ]

/-- C3 (amended): zero rows or zero aggregated columns are not detected as
an error; both pipelines succeed and emit one bare CRLF line for the
(empty) header and one bare CRLF line per row — there is no `EmptyResult`
anywhere in the code. -/
theorem c3_empty_result_not_detected : ∀ rows : List Json, (aggregate rows).2 = [] →
    appConvert (Json.arr rows) =
      some (String.join (List.replicate (rows.length + 1) "\r\n")) ∧
    cliConvert (Json.arr rows) =
      some (String.join (List.replicate (rows.length + 1) "\r\n")) := by
  intro rows h
  have hcols : List.insertionSort (· ≤ ·) (aggregate rows).2 = [] := by
    rw [h]
    rfl
  have hlen : (aggregate rows).1.length = rows.length := by
    rw [aggregate_fst]
    simp
  have happ : appConvert (Json.arr rows) =
      some (String.join (List.replicate (rows.length + 1) "\r\n")) := by
    show some (String.join (emitLine (List.insertionSort (· ≤ ·) (aggregate rows).2) ::
      (aggregate rows).1.map (fun r =>
        emitLine (rowFields (List.insertionSort (· ≤ ·) (aggregate rows).2) r)))) = _
    rw [hcols]
    rw [show (fun r => emitLine (rowFields ([] : List String) r)) =
      fun _ => ("\r\n" : String) from rfl]
    rw [map_const_line, hlen]
    rw [show emitLine ([] : List String) = "\r\n" from rfl]
    rw [List.replicate_succ]
  refine ⟨happ, ?_⟩
  rw [← convert_agree]
  exact happ

/-- C3 witness: the amended claim instantiated at the one-row input
`[{}]`, whose aggregation yields zero columns. -/
theorem c3_witness :
    (aggregate [Json.obj []]).2 = [] ∧
    appConvert (Json.arr [Json.obj []]) =
      some (String.join (List.replicate 2 "\r\n")) :=
  ⟨rfl, (c3_empty_result_not_detected [Json.obj []] rfl).1⟩

/-- C4 counterexample: the document with the members `"a": {"b": 1}` and
`"a.b": 2` has two distinct scalar leaves whose paths both flatten to the
key `a.b`; the merge keeps only the later leaf, so the value `1` is lost
and the keys are not in one-to-one correspondence with the leaves. -/
theorem c4_counterexample :
    leaves (Json.obj [("a", Json.obj [("b", Json.num 1)]), ("a.b", Json.num 2)]) "" =
      [("a.b", Json.num 1), ("a.b", Json.num 2)] ∧
    flatten (Json.obj [("a", Json.obj [("b", Json.num 1)]), ("a.b", Json.num 2)]) "" =
      [("a.b", Json.num 2)] :=
  ⟨rfl, rfl⟩

/-- C4 (amended): the keys of `flatten value` are exactly the flattened
path keys of the scalar leaves of `value` — every key comes from a leaf
and every leaf path occurs as a key — but the correspondence need not be
one-to-one: distinct leaves can share a key, and then the later leaf
overwrites the earlier one in the merge. -/
theorem c4_keys_are_leaf_paths : ∀ (v : Json) (p k : String),
    k ∈ (flatten v p).map Prod.fst ↔ k ∈ (leaves v p).map Prod.fst :=
  fun v p k => flatten_keys v p k

/-- C5: on `{"meta": {"ok": true}, "items": [{"x": 1}]}` the locator
descends into the first object-valued member `meta`, gets stuck there
(no array, no object inside), and both implementations fall back to the
single-row `[document]`; the `items` array of the sibling is not returned. -/
theorem c5_locator_single_descent_path :
    cliLoop (Json.obj [("meta", Json.obj [("ok", Json.bool true)]),
        ("items", Json.arr [Json.obj [("x", Json.num 1)]])]) =
      Json.obj [("ok", Json.bool true)] ∧
    find_array (Json.obj [("meta", Json.obj [("ok", Json.bool true)]),
        ("items", Json.arr [Json.obj [("x", Json.num 1)]])]) =
      Json.arr [Json.obj [("meta", Json.obj [("ok", Json.bool true)]),
        ("items", Json.arr [Json.obj [("x", Json.num 1)]])]] ∧
    find_array (Json.obj [("meta", Json.obj [("ok", Json.bool true)]),
        ("items", Json.arr [Json.obj [("x", Json.num 1)]])]) ≠
      Json.arr [Json.obj [("x", Json.num 1)]] := by
  have h1 : cliLoop (Json.obj [("meta", Json.obj [("ok", Json.bool true)]),
      ("items", Json.arr [Json.obj [("x", Json.num 1)]])]) =
      Json.obj [("ok", Json.bool true)] := by
    rw [cliLoop_obj]
    show cliLoop (Json.obj [("ok", Json.bool true)]) = Json.obj [("ok", Json.bool true)]
    rw [cliLoop_obj]
    exact rfl
  have ha : appLoop (Json.obj [("meta", Json.obj [("ok", Json.bool true)]),
      ("items", Json.arr [Json.obj [("x", Json.num 1)]])]) =
      Sum.inr (Json.obj [("ok", Json.bool true)]) := by
    rw [appLoop_obj]
    show appLoop (Json.obj [("ok", Json.bool true)]) = Sum.inr (Json.obj [("ok", Json.bool true)])
    rw [appLoop_obj]
    exact rfl
  have h2 : find_array (Json.obj [("meta", Json.obj [("ok", Json.bool true)]),
      ("items", Json.arr [Json.obj [("x", Json.num 1)]])]) =
      Json.arr [Json.obj [("meta", Json.obj [("ok", Json.bool true)]),
        ("items", Json.arr [Json.obj [("x", Json.num 1)]])]] := by
    rw [find_array, ha]
  refine ⟨h1, h2, ?_⟩
  rw [h2]
  intro hcontra
  have hlist : [Json.obj [("meta", Json.obj [("ok", Json.bool true)]),
      ("items", Json.arr [Json.obj [("x", Json.num 1)]])]] =
      [Json.obj [("x", Json.num 1)]] := Json.arr.inj hcontra
  have hhead := List.head_eq_of_cons_eq hlist
  have hfields := Json.obj.inj hhead
  have hpair := List.head_eq_of_cons_eq hfields
  have : "meta" = "x" := congrArg Prod.fst hpair
  simp at this

/-- C6: the column list is exactly the union of the flattened key sets of
the rows — a key is a column iff some row's flattening contains it — it is
strictly sorted in ascending lexicographic string order, and it is the
very list given to the CSV writer as the header fieldnames by the
pipeline. -/
theorem c6_header_columns : ∀ rows : List Json,
    (∀ k, k ∈ columnsOf rows ↔ ∃ r ∈ rows, k ∈ (flatten r "").map Prod.fst) ∧
    (columnsOf rows).Sorted (· < ·) ∧
    appConvert (Json.arr rows) =
      some (String.join (emitLine (columnsOf rows) ::
        (aggregate rows).1.map (fun r => emitLine (rowFields (columnsOf rows) r)))) :=
  fun rows => ⟨fun k => mem_columnsOf rows k, columnsOf_sorted rows, rfl⟩

/-- C7 counterexample: at nesting depth 2000 — far beyond CPython's default
recursion limit of 1000 — `flatten` still denotes the ordinary one-entry
row; the code has no depth guard and no `StructureTooDeep` error to fail
with (at runtime the Python process raises an unhandled `RecursionError`). -/
theorem c7_counterexample :
    flatten (nest 2000) "" = [(deepKey 2000 "", Json.num 1)] :=
  flatten_nest 2000 ""

/-- C7 (amended): `flatten` has no recursion guard and no
`StructureTooDeep` error path: it recurses to the full nesting depth of
its input and, as a pure function, maps the single-chain document of any
depth to its one-leaf row. -/
theorem c7_flatten_unguarded : ∀ (n : Nat) (p : String),
    flatten (nest n) p = [(deepKey n p, Json.num 1)] :=
  fun n p => flatten_nest n p

/-- C8: any string field containing a comma, a double quote, and a newline
is emitted quoted with doubled internal quotes, and re-parsing the emitted
field under RFC 4180 rules recovers the original string exactly. -/
theorem c8_quoting_roundtrip : ∀ s : String, ',' ∈ s.data → '"' ∈ s.data → '\n' ∈ s.data →
    parseCsvField (encodeField s).data = some s.data := by
  intro s hc _hq _hn
  rw [encodeField_data_of_comma hc]
  show parseQuotedBody (doubleQuotes s.data ++ ['"']) = some s.data
  exact parseQuotedBody_double s.data

/-- C8 witness: the round-trip at the concrete field value
`a,"b<newline>c`. -/
theorem c8_witness :
    (',' ∈ ("a,\"b\nc" : String).data) ∧ ('"' ∈ ("a,\"b\nc" : String).data) ∧
    ('\n' ∈ ("a,\"b\nc" : String).data) ∧
    parseCsvField (encodeField "a,\"b\nc").data = some ("a,\"b\nc" : String).data :=
  ⟨by decide, by decide, by decide,
    c8_quoting_roundtrip "a,\"b\nc" (by decide) (by decide) (by decide)⟩

/-- C9: a column absent from a row renders as the empty field (`restval`),
and keys of a row outside the column list are ignored without error: the
emitted fields only consult the row entries whose keys are columns. -/
theorem c9_missing_and_extra_keys :
    ∀ (cols : List String) (row : List (String × Json)) (c : String),
    (c ∉ row.map Prod.fst → fieldFor row c = "") ∧
    rowFields cols row = rowFields cols (row.filter (fun kv => decide (kv.1 ∈ cols))) := by
  intro cols row c
  constructor
  · intro h
    rw [fieldFor, lookupRow_eq_none h]
  · rw [rowFields, rowFields]
    apply List.map_congr_left
    intro a ha
    rw [fieldFor, fieldFor, lookupRow_filter cols row a ha]

/-- C9 witness: with the single column `a` and the row `{"b": 1}`, the
missing column renders empty and the extra key `b` is dropped. -/
theorem c9_witness :
    ("a" ∉ ([("b", Json.num 1)] : List (String × Json)).map Prod.fst) ∧
    fieldFor [("b", Json.num 1)] "a" = "" ∧
    rowFields ["a"] [("b", Json.num 1)] =
      rowFields ["a"] ([("b", Json.num 1)].filter (fun kv => decide (kv.1 ∈ ["a"]))) :=
  ⟨by decide, (c9_missing_and_extra_keys ["a"] [("b", Json.num 1)] "a").1 (by decide),
    (c9_missing_and_extra_keys ["a"] [("b", Json.num 1)] "a").2⟩

/-- C10: every scalar row flattens to the single-entry mapping under the
empty-string key, and the concrete input `[1, 2, 3]` converts successfully
to a CSV with the single column named by the empty string (emitted as a
quoted empty header field) and one data line per scalar. -/
theorem c10_scalar_rows :
    (∀ v : Json, isScalar v = true → flatten v "" = [("", v)]) ∧
    columnsOf [Json.num 1, Json.num 2, Json.num 3] = [""] ∧
    appConvert (Json.arr [Json.num 1, Json.num 2, Json.num 3]) =
      some "\"\"\r\n1\r\n2\r\n3\r\n" := by
  refine ⟨?_, rfl, rfl⟩
  intro v hv
  cases v with
  | null => rfl
  | bool b => rfl
  | num n => rfl
  | str s => rfl
  | arr vs => exact absurd hv (by simp [isScalar])
  | obj fs => exact absurd hv (by simp [isScalar])

/-- C10 witness: the scalar part instantiated at `null`. -/
theorem c10_witness :
    isScalar Json.null = true ∧ flatten Json.null "" = [("", Json.null)] :=
  ⟨rfl, c10_scalar_rows.1 Json.null rfl⟩
